import Mathlib

/-!
Shallow embedding of `network/tls.go` from the onet repository.

The file models the ephemeral-certificate TLS handshake layer:
certificate issuance (`certMaker.get` and its two `crypto/tls`
callbacks), peer verification (`makeVerifier`), nonce generation
(`mkNonce`), configuration cloning (`cloneTLSClientConfig`) and the
outbound dial loop (`NewTLSConn`).

External collaborators (the kyber crypto suite, `encoding/hex`,
`encoding/asn1`, `crypto/x509`, the TCP dialer) are modelled at their
interface boundary: the suite is an abstract structure carrying its
documented contracts (marshal/unmarshal and sign/verify round-trips),
hex encoding is implemented concretely (it is simple enough to embed
exactly), ASN.1 string marshaling is a fixed injective-enough byte
encoding, and the x509 self-signature check is an abstract boolean
certificate field together with the validity-window comparison that
`x509.Certificate.Verify` performs.

Bytes are `Fin 256`; times are integers counted in seconds, so the Go
durations `2 * time.Hour` and `5 * time.Minute` appear as `7200` and
`300`.
-/

namespace OnetTLS

/-- A byte, as carried in Go `[]byte` values. -/
abbrev Byte := Fin 256

/-- The constant `nonceSize = 256 / 8` from tls.go. -/
def nonceSize : Nat := 256 / 8

/-- The reserved object identifier 1.3.6.1.4.1.51281.1.1, `oidDedisSig`. -/
def oidDedisSig : List Nat := [1, 3, 6, 1, 4, 1, 51281, 1, 1]

/-- Lowercase hex digit for a nibble, as produced by Go `hex.EncodeToString`. -/
def hexDigitChar (n : Fin 16) : Char :=
  if n.val < 10 then Char.ofNat (48 + n.val) else Char.ofNat (87 + n.val)

/-- High nibble of a byte. -/
def byteHi (b : Byte) : Fin 16 :=
  ⟨b.val / 16, by have := b.isLt; omega⟩

/-- Low nibble of a byte. -/
def byteLo (b : Byte) : Fin 16 :=
  ⟨b.val % 16, by have := b.isLt; omega⟩

/-- Go `hex.EncodeToString`: each byte becomes two lowercase hex digits. -/
def hexEncodeChars (bs : List Byte) : List Char :=
  bs.flatMap (fun b => [hexDigitChar (byteHi b), hexDigitChar (byteLo b)])

/-- Value of one hex digit, accepting the upper- and lowercase ranges that
Go `hex.DecodeString` accepts. -/
def hexVal (c : Char) : Option (Fin 16) :=
  if h : 48 ≤ c.toNat ∧ c.toNat ≤ 57 then some ⟨c.toNat - 48, by omega⟩
  else if h2 : 97 ≤ c.toNat ∧ c.toNat ≤ 102 then some ⟨c.toNat - 87, by omega⟩
  else if h3 : 65 ≤ c.toNat ∧ c.toNat ≤ 70 then some ⟨c.toNat - 55, by omega⟩
  else none

/-- Go `hex.DecodeString`: pairs of hex digits; odd length or a non-hex
character is an error, modelled as `none`. -/
def hexDecodeChars : List Char → Option (List Byte)
  | [] => some []
  | [_] => none
  | c1 :: c2 :: rest =>
    match hexVal c1, hexVal c2, hexDecodeChars rest with
    | some h, some l, some bs =>
      some (⟨h.val * 16 + l.val, by have := h.isLt; have := l.isLt; omega⟩ :: bs)
    | _, _, _ => none

/-- A character as the byte Go stores for it (the strings handled here are
ASCII, so truncation never fires). -/
def charToByte (c : Char) : Byte :=
  ⟨c.toNat % 256, Nat.mod_lt _ (by omega)⟩

/-- ASN.1 marshaling (`asn1.Marshal`) of a Go string, the certificate CommonName:
a DER PrintableString, i.e. tag byte 0x13, a length byte and the content
bytes.  Only its role as a fixed deterministic encoding matters to this
development, so the short-form length is kept modulo 256. -/
def derAsn1String (cs : List Char) : List Byte :=
  ⟨19, by omega⟩ :: ⟨cs.length % 256, Nat.mod_lt _ (by omega)⟩ :: cs.map charToByte

/-- The kyber crypto suite and schnorr signature module, modelled at their
interface boundary (spec section 6: group point marshal/unmarshal, sign and
verify, with their documented round-trip contracts). `legacyFromHex` is
`encoding.StringHexToPoint`, used only for the old-style CommonName
encoding. -/
structure Suite (P Sc : Type) where
  pubOf : Sc → P
  marshal : P → List Byte
  unmarshal : List Byte → Option P
  legacyFromHex : List Char → Option P
  sign : Sc → List Byte → List Byte
  verify : P → List Byte → List Byte → Bool
  marshal_unmarshal : ∀ p, unmarshal (marshal p) = some p
  sign_verify : ∀ sk m, verify (pubOf sk) m (sign sk m) = true

/-- The new-style CommonName `pubToCN`: the letter Z followed by the hex
encoding of the marshaled public key. -/
def pubToCN (S : Suite P Sc) (pub : P) : List Char :=
  'Z' :: hexEncodeChars (S.marshal pub)

/-- The decoder `pubFromCN`: a CommonName back to a point; a leading Z selects
the new-style unhex-and-unmarshal path, anything else the legacy decoder. -/
def pubFromCN (S : Suite P Sc) (cn : List Char) : Option P :=
  match cn with
  | [] => none
  | tp :: rest =>
    if tp = 'Z' then (hexDecodeChars rest).bind S.unmarshal
    else S.legacyFromHex (tp :: rest)

theorem hexVal_hexDigitChar (n : Fin 16) : hexVal (hexDigitChar n) = some n := by
  revert n; decide

theorem hexDecode_hexEncode (bs : List Byte) :
    hexDecodeChars (hexEncodeChars bs) = some bs := by
  induction bs with
  | nil => rfl
  | cons b bs ih =>
    have hb : hexEncodeChars (b :: bs) =
        hexDigitChar (byteHi b) :: hexDigitChar (byteLo b) :: hexEncodeChars bs := by
      simp [hexEncodeChars]
    rw [hb]
    simp only [hexDecodeChars, hexVal_hexDigitChar, ih]
    congr 1
    congr 1
    apply Fin.ext
    simp [byteHi, byteLo]
    omega

theorem pubFromCN_pubToCN (S : Suite P Sc) (pub : P) :
    pubFromCN S (pubToCN S pub) = some pub := by
  simp [pubFromCN, pubToCN, hexDecode_hexEncode, Option.bind, S.marshal_unmarshal]

/-- The `ServerIdentity` fields this file uses: long-term public key, optional
long-term private key (`GetPrivate`), and the one bit of the address this
file reads, whether its connection type is TLS. -/
structure ServerIdentity (P Sc : Type) where
  public : P
  privateKey : Option Sc
  addrIsTLS : Bool

/-- The `certMaker` state: the identity, the CommonName it will put in every subject
and that name's ASN.1 DER encoding.  The ephemeral ECDSA P-256 key `k` is
transport key material handled entirely by `crypto/tls`/`crypto/x509`; it
does not appear in any property here, so it is not modelled. -/
structure CertMaker (P Sc : Type) where
  si : ServerIdentity P Sc
  subj : List Char
  subjDer : List Byte

/-- The constructor `newCertMaker`: fixes the subject to the new-style CommonName of the
identity's public key and precomputes its DER encoding. -/
def newCertMaker (S : Suite P Sc) (si : ServerIdentity P Sc) : CertMaker P Sc :=
  { si := si
    subj := pubToCN S si.public
    subjDer := derAsn1String (pubToCN S si.public) }

/-- The fields of the issued x509 certificate that this layer reads or
writes.  `selfSigned` abstracts the fact that `x509.CreateCertificate`
signs the template with the certificate's own (ephemeral) key, which is
what `x509.Certificate.Verify` against a root pool holding only the
certificate itself later checks.  Times are seconds. -/
structure Cert where
  subjectCN : List Char
  notBefore : Int
  notAfter : Int
  serial : Nat
  extensions : List (List Nat × List Byte)
  selfSigned : Bool
deriving DecidableEq

/-- Failures of `certMaker.get` and `certMaker.getClientCertificate`. -/
inductive IssueError where
  | invalidNonceSize
  | signingFailed
  | noNonceInAcceptableCAs
deriving DecidableEq

/-- The issuer `certMaker.get`: reject a nonce that is not exactly `nonceSize` bytes,
sign `nonce ++ subjDer` with the long-term private key, and issue a
self-signed certificate valid from five minutes before `now` to two hours
after it, carrying the signature in the extension `oidDedisSig`.  `serial`
stands for the 128 random bits `get` draws for the serial number. -/
def CertMaker.get (S : Suite P Sc) (cm : CertMaker P Sc) (now : Int) (serial : Nat)
    (nonce : List Byte) : Except IssueError Cert :=
  if nonce.length ≠ nonceSize then .error .invalidNonceSize
  else
    match cm.si.privateKey with
    | none => .error .signingFailed
    | some sk =>
      let sig := S.sign sk (nonce ++ cm.subjDer)
      .ok { subjectCN := cm.subj
            notBefore := now - 300
            notAfter := now + 7200
            serial := serial
            extensions := [(oidDedisSig, sig)]
            selfSigned := true }

/-- The server-side `crypto/tls` callback `certMaker.getCertificate`; the
nonce arrives as the bytes of `ClientHelloInfo.ServerName`. -/
def CertMaker.getCertificate (S : Suite P Sc) (cm : CertMaker P Sc) (now : Int)
    (serial : Nat) (serverName : List Byte) : Except IssueError Cert :=
  cm.get S now serial serverName

/-- The client-side `crypto/tls` callback `certMaker.getClientCertificate`:
callback; an empty `AcceptableCAs` is an error, otherwise only its first
entry is used as the nonce. -/
def CertMaker.getClientCertificate (S : Suite P Sc) (cm : CertMaker P Sc) (now : Int)
    (serial : Nat) (acceptableCAs : List (List Byte)) : Except IssueError Cert :=
  match acceptableCAs with
  | [] => .error .noNonceInAcceptableCAs
  | n :: _ => cm.get S now serial n

/-- Failures of the verifier closure, in the order the code can hit them. -/
inductive VerifyError where
  | malformedChain
  | expired
  | invalidCertificate
  | identityMismatch
  | missingProofExtension
  | badCommonName
  | invalidProofSignature
deriving DecidableEq

/-- The tail of the verifier shared by both roles: find the DEDIS
extension, decode the claimed public key from the CommonName, and check
the schnorr signature over `nonce ++ asn1.Marshal(cn)`. -/
def verifyProof (S : Suite P Sc) (nonce : List Byte) (cert : Cert) :
    Except VerifyError Unit :=
  match cert.extensions.find? (fun x => decide (x.1 = oidDedisSig)) with
  | none => .error .missingProofExtension
  | some ext =>
    match pubFromCN S cert.subjectCN with
    | none => .error .badCommonName
    | some pub =>
      if S.verify pub (nonce ++ derAsn1String cert.subjectCN) ext.2 then .ok ()
      else .error .invalidProofSignature

/-- The closure returned by `makeVerifier`, with the nonce it closed over
passed explicitly (`makeVerifier` draws it via `mkNonce`) and with the
verification time `now` explicit.  The chain must hold exactly one
certificate; `x509.Certificate.Verify` against the certificate itself is
the validity-window comparison plus the abstract self-signature bit (the
window is checked first, as `x509`'s `isValid` runs before chain
signature checks); `cert.VerifyHostname(pubToCN(them.Public))` is the
external hostname check, which on these certificates (a single
CommonName, no subject alternative names, no dots) is equality of the
CommonName with the expected encoded key. -/
def makeVerifier (S : Suite P Sc) (them : Option (ServerIdentity P Sc))
    (nonce : List Byte) (now : Int) (chain : List Cert) : Except VerifyError Unit :=
  match chain with
  | [cert] =>
    if now < cert.notBefore ∨ cert.notAfter < now then .error .expired
    else if cert.selfSigned = false then .error .invalidCertificate
    else
      match them with
      | none => verifyProof S nonce cert
      | some t =>
        if cert.subjectCN = pubToCN S t.public then verifyProof S nonce cert
        else .error .identityMismatch
  | _ => .error .malformedChain

/-- The four bytes `mkNonce` filters out of nonces: `.`, `[`, `]`, `%`. -/
def forbiddenByte (b : Byte) : Bool :=
  b.val = 46 || b.val = 91 || b.val = 93 || b.val = 37

/-- Go's byte test over the four forbidden characters. -/
def containsForbidden (bs : List Byte) : Bool :=
  bs.any forbiddenByte

/-- One 32-byte read from the suite's random stream. -/
def randBuf (rand : Nat → Fin nonceSize → Byte) (i : Nat) : List Byte :=
  List.ofFn (rand i)

/-- The generator `mkNonce`: draw `nonceSize` random bytes and redraw while any
forbidden byte appears.  The random stream is explicit (`rand i` is the
buffer of the i-th draw) and the unbounded Go loop carries fuel, so a
run that never finds a clean buffer is `none`. -/
def mkNonce (rand : Nat → Fin nonceSize → Byte) : Nat → Nat → Option (List Byte)
  | 0, _ => none
  | fuel + 1, i =>
    if containsForbidden (randBuf rand i) then mkNonce rand fuel (i + 1)
    else some (randBuf rand i)

/-- Go `tls.Config` with its fields abstracted to plain values: the first
seventeen fields are the ones `cloneTLSClientConfig` lists; after them
come fields of the type that the clone does not list — three callbacks
this very file installs on configs (`GetClientCertificate` in
`tlsConfig`, `GetConfigForClient` and `VerifyPeerCertificate` in the
listener and dialer paths), the session ticket key, and the once-only
internal initialization state (`sync.Once` and what it guards). -/
structure TLSConfig where
  rand : Nat
  time : Nat
  certificates : List Nat
  nameToCertificate : List (List Char × Nat)
  getCertificate : Option Nat
  rootCAs : Option Nat
  nextProtos : List (List Char)
  serverName : List Byte
  clientAuth : Nat
  clientCAs : Option (List (List Byte))
  insecureSkipVerify : Bool
  cipherSuites : List Nat
  preferServerCipherSuites : Bool
  clientSessionCache : Option Nat
  minVersion : Nat
  maxVersion : Nat
  curvePreferences : List Nat
  getClientCertificate : Option Nat
  getConfigForClient : Option Nat
  verifyPeerCertificate : Option Nat
  sessionTicketKey : List Byte
  serverInitOnce : Bool
deriving DecidableEq

/-- The zero `tls.Config`, i.e. Go's `&tls.Config{}`. -/
def emptyTLSConfig : TLSConfig :=
  { rand := 0
    time := 0
    certificates := []
    nameToCertificate := []
    getCertificate := none
    rootCAs := none
    nextProtos := []
    serverName := []
    clientAuth := 0
    clientCAs := none
    insecureSkipVerify := false
    cipherSuites := []
    preferServerCipherSuites := false
    clientSessionCache := none
    minVersion := 0
    maxVersion := 0
    curvePreferences := []
    getClientCertificate := none
    getConfigForClient := none
    verifyPeerCertificate := none
    sessionTicketKey := []
    serverInitOnce := false }

/-- The clone `cloneTLSClientConfig`: nil gives the zero config; otherwise a struct
literal listing exactly the seventeen fields the Go function lists, every
unlisted field (the three callbacks, the ticket key, the once-state)
taking its zero value as a Go struct literal leaves it. -/
def cloneTLSClientConfig (cfg : Option TLSConfig) : TLSConfig :=
  match cfg with
  | none => emptyTLSConfig
  | some cfg =>
    { rand := cfg.rand
      time := cfg.time
      certificates := cfg.certificates
      nameToCertificate := cfg.nameToCertificate
      getCertificate := cfg.getCertificate
      rootCAs := cfg.rootCAs
      nextProtos := cfg.nextProtos
      serverName := cfg.serverName
      clientAuth := cfg.clientAuth
      clientCAs := cfg.clientCAs
      insecureSkipVerify := cfg.insecureSkipVerify
      cipherSuites := cfg.cipherSuites
      preferServerCipherSuites := cfg.preferServerCipherSuites
      clientSessionCache := cfg.clientSessionCache
      minVersion := cfg.minVersion
      maxVersion := cfg.maxVersion
      curvePreferences := cfg.curvePreferences
      getClientCertificate := none
      getConfigForClient := none
      verifyPeerCertificate := none
      sessionTicketKey := []
      serverInitOnce := false }

/-- The connection `NewTLSConn` returns, reduced to what the model can
observe: which attempt produced it and the `ServerName` that attempt
dialed with. -/
structure TCPConn where
  attempt : Nat
  serverName : List Byte
deriving DecidableEq

/-- Errors of `NewTLSConn`: the two pre-loop configuration errors, the
`ErrTimeout` sentinel, and a dial error from the underlying
`tls.DialWithDialer` (of abstract type `E`). -/
inductive ConnError (E : Type) where
  | notTLSServer
  | privateKeyNotSet
  | timeout
  | dial (e : E)
deriving DecidableEq

/-- The retry loop of `NewTLSConn`: Go's `for i := 1; i <= MaxRetryConnect`
with `remaining` iterations left and `i` the current attempt index, so the
loop entered at `i = 1` has `remaining = MaxRetryConnect`.  Each iteration
sets `cfg.ServerName` to the one nonce and dials; `lastErr` is the Go
variable `err`, which survives the loop, and after the loop `err == nil`
is replaced by `ErrTimeout`.  The first component records the trace of
`(attempt, ServerName)` pairs actually dialed. -/
def dialLoop (dial : Nat → List Byte → Except E Unit) (serverName : List Byte) :
    Nat → Nat → Option E → List (Nat × List Byte) × Except (ConnError E) TCPConn
  | _, 0, lastErr =>
    ([], match lastErr with
         | none => .error .timeout
         | some e => .error (.dial e))
  | i, remaining + 1, _ =>
    match dial i serverName with
    | .ok _ => ([(i, serverName)], .ok ⟨i, serverName⟩)
    | .error e =>
      let r := dialLoop dial serverName (i + 1) remaining (some e)
      ((i, serverName) :: r.1, r.2)

/-- The dialer `NewTLSConn`: refuse a non-TLS address, refuse a missing private key,
then run the retry loop.  The nonce and the verifier closure are built
once, before the loop (`makeVerifier` is modelled separately; `dial`
stands for `tls.DialWithDialer` with the assembled config, and receives
the `ServerName` the config carries, which is the nonce). -/
def NewTLSConn (us them : ServerIdentity P Sc) (maxRetry : Nat)
    (dial : Nat → List Byte → Except E Unit) (nonce : List Byte) :
    List (Nat × List Byte) × Except (ConnError E) TCPConn :=
  if them.addrIsTLS = false then ([], .error .notTLSServer)
  else if us.privateKey.isNone then ([], .error .privateKeyNotSet)
  else dialLoop dial nonce 1 maxRetry none

/-! Concrete instantiations used to evaluate the development on explicit
inputs: a one-byte group whose signature scheme records the signing key
and the message, which satisfies the suite contracts and also binds
signatures to their messages. -/

abbrev ToyPoint := Fin 256

def toySuite : Suite ToyPoint ToyPoint where
  pubOf := id
  marshal := fun p => [p]
  unmarshal := fun bs =>
    match bs with
    | [b] => some b
    | _ => none
  legacyFromHex := fun _ => none
  sign := fun sk m => sk :: m
  verify := fun pub m sig => decide (sig = pub :: m)
  marshal_unmarshal := fun _ => rfl
  sign_verify := fun sk m => by simp

theorem toySuite_binding (pub sk : ToyPoint) (m m' : List Byte) (h : m ≠ m') :
    toySuite.verify pub m' (toySuite.sign sk m) = false := by
  simp only [toySuite, decide_eq_false_iff_not, List.cons.injEq, not_and]
  exact fun _ hm => absurd hm h

def siw : ServerIdentity ToyPoint ToyPoint :=
  { public := 5, privateKey := some 5, addrIsTLS := true }

def noncew : List Byte := List.replicate nonceSize 0

def noncewB : List Byte := 1 :: List.replicate (nonceSize - 1) 0

def randw : Nat → Fin nonceSize → Byte := fun _ _ => 0

def dialw : Nat → List Byte → Except Nat Unit := fun _ _ => .error 7

/-! Unfolding equations and characterizations of the retry loop. -/

theorem dialLoop_zero (dial : Nat → List Byte → Except E Unit) (sn : List Byte)
    (i : Nat) (lastErr : Option E) :
    dialLoop dial sn i 0 lastErr =
      ([], match lastErr with
           | none => .error .timeout
           | some e => .error (.dial e)) := rfl

theorem dialLoop_succ (dial : Nat → List Byte → Except E Unit) (sn : List Byte)
    (i r : Nat) (lastErr : Option E) :
    dialLoop dial sn i (r + 1) lastErr =
      match dial i sn with
      | .ok _ => ([(i, sn)], .ok ⟨i, sn⟩)
      | .error e =>
        let t := dialLoop dial sn (i + 1) r (some e)
        ((i, sn) :: t.1, t.2) := rfl

theorem dialLoop_serverName (dial : Nat → List Byte → Except E Unit) (sn : List Byte) :
    ∀ r i lastErr p, p ∈ (dialLoop dial sn i r lastErr).1 → p.2 = sn := by
  intro r
  induction r with
  | zero =>
    intro i le p hp
    simp [dialLoop_zero] at hp
  | succ r ih =>
    intro i le p hp
    rw [dialLoop_succ] at hp
    cases hdial : dial i sn with
    | ok u =>
      rw [hdial] at hp
      simp at hp
      rw [hp]
    | error e =>
      rw [hdial] at hp
      simp at hp
      rcases hp with hp | hp
      · rw [hp]
      · exact ih (i + 1) (some e) p hp

theorem dialLoop_allFail (dial : Nat → List Byte → Except E Unit) (sn : List Byte) :
    ∀ r i lastErr, 1 ≤ r →
      (∀ j, i ≤ j → j < i + r → ∃ e, dial j sn = .error e) →
      (dialLoop dial sn i r lastErr).1.length = r ∧
      ∃ e, dial (i + r - 1) sn = .error e ∧
        (dialLoop dial sn i r lastErr).2 = .error (.dial e) := by
  intro r
  induction r with
  | zero =>
    intro i le h1 _
    omega
  | succ r ih =>
    intro i le _ hfail
    obtain ⟨e, he⟩ := hfail i (le_refl i) (by omega)
    rw [dialLoop_succ, he]
    cases Nat.eq_zero_or_pos r with
    | inl hr0 =>
      subst hr0
      refine ⟨by simp [dialLoop_zero], e, ?_, by simp [dialLoop_zero]⟩
      simpa using he
    | inr hr1 =>
      have hrec := ih (i + 1) (some e) hr1
        (fun j hj hj2 => hfail j (by omega) (by omega))
      refine ⟨by simpa using hrec.1, ?_⟩
      obtain ⟨e2, he2, hres⟩ := hrec.2
      refine ⟨e2, ?_, by simpa using hres⟩
      have : i + 1 + r - 1 = i + (r + 1) - 1 := by omega
      rw [← this]
      exact he2

theorem dialLoop_firstSuccess (dial : Nat → List Byte → Except E Unit) (sn : List Byte) :
    ∀ r i lastErr k, i ≤ k → k < i + r →
      (∀ j, i ≤ j → j < k → ∃ e, dial j sn = .error e) →
      dial k sn = .ok () →
      (dialLoop dial sn i r lastErr).2 = .ok ⟨k, sn⟩ ∧
      (dialLoop dial sn i r lastErr).1.length = k + 1 - i := by
  intro r
  induction r with
  | zero =>
    intro i le k hik hk _ _
    omega
  | succ r ih =>
    intro i le k hik hk hfirst hsucc
    rw [dialLoop_succ]
    cases Nat.eq_or_lt_of_le hik with
    | inl hik0 =>
      subst hik0
      rw [hsucc]
      exact ⟨rfl, by simp⟩
    | inr hlt =>
      obtain ⟨e, he⟩ := hfirst i (le_refl i) hlt
      rw [he]
      have hrec := ih (i + 1) (some e) k (by omega) (by omega)
        (fun j hj hj2 => hfirst j (by omega) hj2) hsucc
      refine ⟨by simpa using hrec.1, ?_⟩
      simp [hrec.2]
      omega

/-! The claims. -/

/-- Claim C4: every nonce returned by `mkNonce` is exactly `nonceSize`
(= 32) bytes long and contains none of the bytes `.`, `[`, `]`, `%`. -/
theorem mkNonce_charset_c4 (rand : Nat → Fin nonceSize → Byte) (fuel i : Nat)
    (ns : List Byte) (h : mkNonce rand fuel i = some ns) :
    ns.length = nonceSize ∧ containsForbidden ns = false := by
  induction fuel generalizing i with
  | zero => simp [mkNonce] at h
  | succ f ih =>
    rw [mkNonce] at h
    by_cases hc : containsForbidden (randBuf rand i) = true
    · rw [if_pos hc] at h
      exact ih (i + 1) h
    · rw [if_neg hc] at h
      injection h with h
      subst h
      exact ⟨by simp [randBuf, nonceSize], by simpa using hc⟩

theorem mkNonce_charset_c4_witness :
    noncew.length = nonceSize ∧ containsForbidden noncew = false :=
  mkNonce_charset_c4 randw 1 0 noncew (by decide)

/-- Claim C7: `certMaker.get` rejects every nonce whose length is not
exactly `nonceSize` bytes with the invalid-nonce-size error and issues no
certificate, and for a 32-byte nonce it never produces that error. -/
theorem get_nonce_size_c7 (S : Suite P Sc) (cm : CertMaker P Sc) (now : Int)
    (serial : Nat) (nonce : List Byte) :
    (nonce.length ≠ nonceSize → cm.get S now serial nonce = .error .invalidNonceSize) ∧
    (nonce.length = nonceSize → cm.get S now serial nonce ≠ .error .invalidNonceSize) := by
  constructor
  · intro h
    unfold CertMaker.get
    rw [if_pos h]
  · intro h
    unfold CertMaker.get
    rw [if_neg (by omega)]
    cases hp : cm.si.privateKey with
    | none => simp
    | some sk => simp

theorem get_nonce_size_c7_witness :
    (newCertMaker toySuite siw).get toySuite 0 0 [] = .error .invalidNonceSize ∧
    (newCertMaker toySuite siw).get toySuite 0 0 noncew ≠ .error .invalidNonceSize :=
  ⟨(get_nonce_size_c7 toySuite (newCertMaker toySuite siw) 0 0 []).1 (by decide),
   (get_nonce_size_c7 toySuite (newCertMaker toySuite siw) 0 0 noncew).2 (by decide)⟩

/-- Claim C10: the client certificate callback fails when the server sent
an empty `AcceptableCAs` list, and on a non-empty list it uses exactly the
first entry as the nonce, ignoring the rest. -/
theorem getClientCertificate_c10 (S : Suite P Sc) (cm : CertMaker P Sc)
    (now : Int) (serial : Nat) :
    cm.getClientCertificate S now serial [] = .error .noNonceInAcceptableCAs ∧
    ∀ (n : List Byte) (rest : List (List Byte)),
      cm.getClientCertificate S now serial (n :: rest) = cm.get S now serial n :=
  ⟨rfl, fun _ _ => rfl⟩

/-- A config with a client-certificate callback installed, as `tlsConfig`
in tls.go installs one. -/
def cfgw : TLSConfig :=
  { emptyTLSConfig with getClientCertificate := some 1 }

/-- Claim C5, counterexample: `cloneTLSClientConfig` does not preserve
every non-once field; the `GetClientCertificate` callback of the input is
dropped by the clone. -/
theorem clone_c5_cex :
    cfgw.getClientCertificate = some 1 ∧
    (cloneTLSClientConfig (some cfgw)).getClientCertificate = none :=
  ⟨rfl, rfl⟩

/-- Claim C5, amended: the clone excludes the once-only initialization
state and preserves verbatim exactly the seventeen fields the function
lists; every field outside that list (the `GetClientCertificate`,
`GetConfigForClient` and `VerifyPeerCertificate` callbacks, the session
ticket key) is reset to its zero value rather than preserved. -/
theorem clone_c5 (cfg : TLSConfig) :
    (cloneTLSClientConfig (some cfg)).rand = cfg.rand ∧
    (cloneTLSClientConfig (some cfg)).time = cfg.time ∧
    (cloneTLSClientConfig (some cfg)).certificates = cfg.certificates ∧
    (cloneTLSClientConfig (some cfg)).nameToCertificate = cfg.nameToCertificate ∧
    (cloneTLSClientConfig (some cfg)).getCertificate = cfg.getCertificate ∧
    (cloneTLSClientConfig (some cfg)).rootCAs = cfg.rootCAs ∧
    (cloneTLSClientConfig (some cfg)).nextProtos = cfg.nextProtos ∧
    (cloneTLSClientConfig (some cfg)).serverName = cfg.serverName ∧
    (cloneTLSClientConfig (some cfg)).clientAuth = cfg.clientAuth ∧
    (cloneTLSClientConfig (some cfg)).clientCAs = cfg.clientCAs ∧
    (cloneTLSClientConfig (some cfg)).insecureSkipVerify = cfg.insecureSkipVerify ∧
    (cloneTLSClientConfig (some cfg)).cipherSuites = cfg.cipherSuites ∧
    (cloneTLSClientConfig (some cfg)).preferServerCipherSuites = cfg.preferServerCipherSuites ∧
    (cloneTLSClientConfig (some cfg)).clientSessionCache = cfg.clientSessionCache ∧
    (cloneTLSClientConfig (some cfg)).minVersion = cfg.minVersion ∧
    (cloneTLSClientConfig (some cfg)).maxVersion = cfg.maxVersion ∧
    (cloneTLSClientConfig (some cfg)).curvePreferences = cfg.curvePreferences ∧
    (cloneTLSClientConfig (some cfg)).serverInitOnce = false ∧
    (cloneTLSClientConfig (some cfg)).getClientCertificate = none ∧
    (cloneTLSClientConfig (some cfg)).getConfigForClient = none ∧
    (cloneTLSClientConfig (some cfg)).verifyPeerCertificate = none ∧
    (cloneTLSClientConfig (some cfg)).sessionTicketKey = [] :=
  ⟨rfl, rfl, rfl, rfl, rfl, rfl, rfl, rfl, rfl, rfl, rfl,
   rfl, rfl, rfl, rfl, rfl, rfl, rfl, rfl, rfl, rfl, rfl⟩

/-- Claim C2, counterexample: with every dial attempt failing (here with
dial error `7`), `NewTLSConn` terminates but returns the last dial error,
not the timeout error. -/
theorem conn_retry_c2_cex :
    (NewTLSConn siw siw 3 dialw noncew).2 = .error (.dial 7) ∧
    (NewTLSConn siw siw 3 dialw noncew).2 ≠ .error .timeout := by
  have h1 : (NewTLSConn siw siw 3 dialw noncew).2 = .error (.dial 7) := rfl
  refine ⟨h1, ?_⟩
  rw [h1]
  simp

/-- Claim C2, amended: an outbound connect to a TLS address with the
private key set terminates after at most the fixed number of attempts;
when every attempt fails it makes exactly `maxRetry` attempts and returns
the dial error of the last attempt (the timeout sentinel appears only
when the retry budget allows zero attempts); when some attempt succeeds,
the connection of the first successful attempt is returned immediately,
with no further attempts. -/
theorem conn_retry_c2 (us them : ServerIdentity P Sc) (maxRetry : Nat)
    (dial : Nat → List Byte → Except E Unit) (nonce : List Byte)
    (htls : them.addrIsTLS = true) (hpriv : us.privateKey.isNone = false) :
    ((1 ≤ maxRetry ∧ ∀ i, 1 ≤ i → i ≤ maxRetry → ∃ e, dial i nonce = .error e) →
      (NewTLSConn us them maxRetry dial nonce).1.length = maxRetry ∧
      ∃ e, dial maxRetry nonce = .error e ∧
        (NewTLSConn us them maxRetry dial nonce).2 = .error (.dial e)) ∧
    (∀ k, 1 ≤ k → k ≤ maxRetry →
      (∀ i, 1 ≤ i → i < k → ∃ e, dial i nonce = .error e) →
      dial k nonce = .ok () →
      (NewTLSConn us them maxRetry dial nonce).2 = .ok ⟨k, nonce⟩ ∧
      (NewTLSConn us them maxRetry dial nonce).1.length = k) := by
  have hN : NewTLSConn us them maxRetry dial nonce = dialLoop dial nonce 1 maxRetry none := by
    simp [NewTLSConn, htls, hpriv]
  constructor
  · rintro ⟨h1, hfail⟩
    rw [hN]
    obtain ⟨hlen, e, he, hres⟩ := dialLoop_allFail dial nonce maxRetry 1 none h1
      (fun j hj hj2 => hfail j hj (by omega))
    refine ⟨hlen, e, ?_, hres⟩
    have heq : 1 + maxRetry - 1 = maxRetry := by omega
    rwa [heq] at he
  · intro k hk1 hkm hfirst hsucc
    rw [hN]
    have hrec := dialLoop_firstSuccess dial nonce maxRetry 1 none k hk1 (by omega)
      (fun j hj hj2 => hfirst j hj hj2) hsucc
    refine ⟨hrec.1, ?_⟩
    rw [hrec.2]
    omega

theorem conn_retry_c2_witness :
    (NewTLSConn siw siw 3 dialw noncew).1.length = 3 ∧
    (NewTLSConn siw siw 3 dialw noncew).2 = .error (.dial 7) := by
  obtain ⟨hlen, e, he, hres⟩ :=
    (conn_retry_c2 siw siw 3 dialw noncew rfl rfl).1 ⟨by omega, fun i _ _ => ⟨7, rfl⟩⟩
  refine ⟨hlen, ?_⟩
  simp only [dialw] at he
  injection he with he
  rw [← he] at hres
  exact hres

/-- Claim C9: every dial attempt of one `NewTLSConn` invocation carries
the same nonce in the initiator-side `ServerName` field; the nonce and
its verifier closure are fixed before the retry loop, so no per-attempt
regeneration occurs. -/
theorem nonce_reuse_c9 (us them : ServerIdentity P Sc) (maxRetry : Nat)
    (dial : Nat → List Byte → Except E Unit) (nonce : List Byte) :
    ∀ p ∈ (NewTLSConn us them maxRetry dial nonce).1, p.2 = nonce := by
  intro p hp
  unfold NewTLSConn at hp
  split at hp
  · simp at hp
  · split at hp
    · simp at hp
    · exact dialLoop_serverName dial nonce maxRetry 1 none p hp

theorem nonce_reuse_c9_witness : ((1, noncew) : Nat × List Byte).2 = noncew :=
  nonce_reuse_c9 siw siw 3 dialw noncew (1, noncew) (by decide)

/-! Support lemmas for the issuance/verification claims. -/

/-- The certificate `certMaker.get` issues when the nonce has the right
size and the private key is present (this is the value constructed in the
success branch of `get`). -/
def issuedCert (S : Suite P Sc) (si : ServerIdentity P Sc) (sk : Sc) (now : Int)
    (serial : Nat) (nonce : List Byte) : Cert :=
  { subjectCN := pubToCN S si.public
    notBefore := now - 300
    notAfter := now + 7200
    serial := serial
    extensions := [(oidDedisSig,
      S.sign sk (nonce ++ derAsn1String (pubToCN S si.public)))]
    selfSigned := true }

theorem get_ok (S : Suite P Sc) (si : ServerIdentity P Sc) (sk : Sc) (now : Int)
    (serial : Nat) (nonce : List Byte) (hlen : nonce.length = nonceSize)
    (hpriv : si.privateKey = some sk) :
    (newCertMaker S si).get S now serial nonce =
      .ok (issuedCert S si sk now serial nonce) := by
  unfold CertMaker.get newCertMaker issuedCert
  rw [if_neg (by omega)]
  simp [hpriv]

theorem makeVerifier_single (S : Suite P Sc) (them : Option (ServerIdentity P Sc))
    (nonce : List Byte) (now : Int) (c : Cert) :
    makeVerifier S them nonce now [c] =
      if now < c.notBefore ∨ c.notAfter < now then .error .expired
      else if c.selfSigned = false then .error .invalidCertificate
      else
        match them with
        | none => verifyProof S nonce c
        | some t =>
          if c.subjectCN = pubToCN S t.public then verifyProof S nonce c
          else .error .identityMismatch := rfl

theorem issuedCert_window (S : Suite P Sc) (si : ServerIdentity P Sc) (sk : Sc)
    (now : Int) (serial : Nat) (nonce : List Byte) :
    ¬(now < (issuedCert S si sk now serial nonce).notBefore ∨
      (issuedCert S si sk now serial nonce).notAfter < now) := by
  simp only [issuedCert]
  omega

theorem verifyProof_issuedCert (S : Suite P Sc) (si : ServerIdentity P Sc) (sk : Sc)
    (hpub : si.public = S.pubOf sk) (now : Int) (serial : Nat) (nonce : List Byte) :
    verifyProof S nonce (issuedCert S si sk now serial nonce) = .ok () := by
  unfold verifyProof
  rw [show (issuedCert S si sk now serial nonce).extensions =
    [(oidDedisSig, S.sign sk (nonce ++ derAsn1String (pubToCN S si.public)))] from rfl]
  rw [show (issuedCert S si sk now serial nonce).subjectCN = pubToCN S si.public from rfl]
  rw [List.find?_cons_of_pos _ (by simp), pubFromCN_pubToCN]
  show (if S.verify si.public (nonce ++ derAsn1String (pubToCN S si.public))
      (S.sign sk (nonce ++ derAsn1String (pubToCN S si.public))) then
      (.ok () : Except VerifyError Unit) else .error .invalidProofSignature) = .ok ()
  rw [hpub, S.sign_verify]
  simp

/-- Claim C1: a certificate issued by `certMaker.get` for a well-formed
32-byte nonce by an identity whose private key is set (and matches its
public key) is accepted by the verifier closure bound to that same nonce,
both with no expected identity and with the issuer as expected identity. -/
theorem roundtrip_c1 (S : Suite P Sc) (si : ServerIdentity P Sc) (sk : Sc)
    (hpriv : si.privateKey = some sk) (hpub : si.public = S.pubOf sk)
    (nonce : List Byte) (hlen : nonce.length = nonceSize)
    (hclean : containsForbidden nonce = false)
    (now : Int) (serial : Nat) (cert : Cert)
    (hget : (newCertMaker S si).get S now serial nonce = .ok cert) :
    makeVerifier S none nonce now [cert] = .ok () ∧
    makeVerifier S (some si) nonce now [cert] = .ok () := by
  rw [get_ok S si sk now serial nonce hlen hpriv] at hget
  injection hget with hget
  subst hget
  constructor
  · rw [makeVerifier_single, if_neg (issuedCert_window S si sk now serial nonce),
      if_neg (by simp [issuedCert])]
    show verifyProof S nonce (issuedCert S si sk now serial nonce) = .ok ()
    exact verifyProof_issuedCert S si sk hpub now serial nonce
  · rw [makeVerifier_single, if_neg (issuedCert_window S si sk now serial nonce),
      if_neg (by simp [issuedCert])]
    show (if (issuedCert S si sk now serial nonce).subjectCN = pubToCN S si.public then
        verifyProof S nonce (issuedCert S si sk now serial nonce)
      else .error .identityMismatch) = .ok ()
    rw [if_pos (show (issuedCert S si sk now serial nonce).subjectCN =
      pubToCN S si.public from rfl)]
    exact verifyProof_issuedCert S si sk hpub now serial nonce

def certw : Cert := issuedCert toySuite siw 5 0 0 noncew

theorem roundtrip_c1_witness :
    makeVerifier toySuite none noncew 0 [certw] = .ok () ∧
    makeVerifier toySuite (some siw) noncew 0 [certw] = .ok () :=
  roundtrip_c1 toySuite siw 5 rfl rfl noncew (by decide) (by decide) 0 0 certw
    (get_ok toySuite siw 5 0 0 noncew (by decide) rfl)

/-- Claim C3: a certificate issued for nonce A fails, specifically at the
schnorr check, against a verifier bound to a different 32-byte nonce B,
for any signature scheme that binds signatures to their messages. -/
theorem nonce_binding_c3 (S : Suite P Sc) (si : ServerIdentity P Sc) (sk : Sc)
    (hpriv : si.privateKey = some sk)
    (nonceA nonceB : List Byte)
    (hlenA : nonceA.length = nonceSize) (hlenB : nonceB.length = nonceSize)
    (hne : nonceA ≠ nonceB)
    (hbind : ∀ (pub : P) (sk0 : Sc) (m m' : List Byte), m ≠ m' →
      S.verify pub m' (S.sign sk0 m) = false)
    (now : Int) (serial : Nat) (cert : Cert)
    (hget : (newCertMaker S si).get S now serial nonceA = .ok cert) :
    makeVerifier S none nonceB now [cert] = .error .invalidProofSignature := by
  rw [get_ok S si sk now serial nonceA hlenA hpriv] at hget
  injection hget with hget
  subst hget
  rw [makeVerifier_single, if_neg (issuedCert_window S si sk now serial nonceA),
    if_neg (by simp [issuedCert])]
  show verifyProof S nonceB (issuedCert S si sk now serial nonceA) =
    .error .invalidProofSignature
  unfold verifyProof
  rw [show (issuedCert S si sk now serial nonceA).extensions =
    [(oidDedisSig, S.sign sk (nonceA ++ derAsn1String (pubToCN S si.public)))] from rfl]
  rw [show (issuedCert S si sk now serial nonceA).subjectCN = pubToCN S si.public from rfl]
  rw [List.find?_cons_of_pos _ (by simp), pubFromCN_pubToCN]
  show (if S.verify si.public (nonceB ++ derAsn1String (pubToCN S si.public))
      (S.sign sk (nonceA ++ derAsn1String (pubToCN S si.public))) then
      (.ok () : Except VerifyError Unit) else .error .invalidProofSignature) =
    .error .invalidProofSignature
  rw [hbind si.public sk (nonceA ++ derAsn1String (pubToCN S si.public))
    (nonceB ++ derAsn1String (pubToCN S si.public))
    (fun h => hne (List.append_cancel_right h))]
  simp

theorem nonce_binding_c3_witness :
    makeVerifier toySuite none noncewB 0 [certw] = .error .invalidProofSignature :=
  nonce_binding_c3 toySuite siw 5 rfl noncew noncewB (by decide) (by decide)
    (by decide) (fun pub sk0 m m' h => toySuite_binding pub sk0 m m' h) 0 0 certw
    (get_ok toySuite siw 5 0 0 noncew (by decide) rfl)

/-- Claim C6: with an expected peer identity bound, verification succeeds
exactly when the rest of the checks pass and the certificate's subject
CommonName equals the expected identity's encoded form (prefix Z plus hex
of the marshaled public key); with no expected identity, the closure is
exactly the remaining checks, with no subject-name comparison. -/
theorem identity_check_c6 (S : Suite P Sc) (t : ServerIdentity P Sc)
    (nonce : List Byte) (now : Int) (c : Cert) :
    makeVerifier S (some t) nonce now [c] = .ok () ↔
      makeVerifier S none nonce now [c] = .ok () ∧
      c.subjectCN = pubToCN S t.public := by
  rw [makeVerifier_single, makeVerifier_single]
  by_cases h1 : now < c.notBefore ∨ c.notAfter < now
  · simp [h1]
  · rw [if_neg h1, if_neg h1]
    by_cases h2 : c.selfSigned = false
    · simp [h2]
    · rw [if_neg h2, if_neg h2]
      show (if c.subjectCN = pubToCN S t.public then verifyProof S nonce c
          else .error .identityMismatch) = .ok () ↔
        verifyProof S nonce c = .ok () ∧ c.subjectCN = pubToCN S t.public
      by_cases h3 : c.subjectCN = pubToCN S t.public
      · rw [if_pos h3]
        simp [h3]
      · rw [if_neg h3]
        simp [h3]

/-- Claim C8: every certificate `certMaker.get` issues is valid from
exactly 5 minutes (300 s) before issuance time to exactly 2 hours
(7200 s) after it, and the verifier closure rejects it as expired at any
verification time strictly after the window's end. -/
theorem validity_window_c8 (S : Suite P Sc) (cm : CertMaker P Sc) (now : Int)
    (serial : Nat) (nonce : List Byte) (cert : Cert)
    (hget : cm.get S now serial nonce = .ok cert) :
    cert.notBefore = now - 300 ∧ cert.notAfter = now + 7200 ∧
    ∀ (them : Option (ServerIdentity P Sc)) (nonce' : List Byte) (t : Int),
      cert.notAfter < t → makeVerifier S them nonce' t [cert] = .error .expired := by
  unfold CertMaker.get at hget
  by_cases hlen : nonce.length ≠ nonceSize
  · rw [if_pos hlen] at hget
    exact absurd hget (by simp)
  · rw [if_neg hlen] at hget
    cases hp : cm.si.privateKey with
    | none =>
      rw [hp] at hget
      exact absurd hget (by simp)
    | some sk =>
      rw [hp] at hget
      injection hget with hget
      subst hget
      refine ⟨rfl, rfl, ?_⟩
      intro them n' t ht
      rw [makeVerifier_single, if_pos (Or.inr ht)]

theorem validity_window_c8_witness :
    certw.notBefore = 0 - 300 ∧ certw.notAfter = 0 + 7200 ∧
    makeVerifier toySuite none noncew 9999 [certw] = .error .expired := by
  obtain ⟨h1, h2, h3⟩ := validity_window_c8 toySuite (newCertMaker toySuite siw) 0 0
    noncew certw (get_ok toySuite siw 5 0 0 noncew (by decide) rfl)
  exact ⟨h1, h2, h3 none noncew 9999 (by rw [h2]; omega)⟩

end OnetTLS
